import Mathlib

/-!
Verification of the script execution service in `src/server/routes.ts`
of the SecureNotes repository.

The service's core is `executePython`: it spawns one interpreter process
per call, accumulates the process's stdout/stderr with a per-stream cap,
arms a deadline timer, and resolves a promise exactly once with a
structured result on whichever of the terminal signals (zero exit,
nonzero exit, timer firing, spawn failure) arrives first.

We shallowly embed the code: JavaScript strings become `List Char`,
the event-driven callbacks become a step function over an explicit
invocation state driven by a trace of timed events, and the promise's
resolve-once discipline becomes an `Option` result field that is only
written when empty.
-/

namespace SecureNotes

/-- JavaScript strings are modelled as lists of characters. -/
abbrev Str := List Char

/-- `MAX_OUTPUT_LENGTH` from routes.ts: per-stream output cap. -/
def MAX_OUTPUT_LENGTH : Nat := 10000

/-- `EXECUTION_TIMEOUT` from routes.ts: deadline in milliseconds. -/
def EXECUTION_TIMEOUT : Int := 30000

/-- The truncation marker appended when a stream buffer exceeds the cap:
`"\n... (output truncated)"`. -/
def truncMarker : Str := "\n... (output truncated)".toList

/-- The placeholder substituted for an empty trimmed stdout on success:
`"(no output)"`. -/
def noOutputMsg : Str := "(no output)".toList

/-- Whitespace characters removed by JavaScript `String.prototype.trim`. -/
def isJsWhitespace (c : Char) : Bool :=
  c = ' ' || c = '\t' || c = '\n' || c = '\r' ||
  c = (Char.ofNat 11) || c = (Char.ofNat 12) || c = (Char.ofNat 160) || c = (Char.ofNat 65279)

/-- Left part of JavaScript `trim`: drop leading whitespace. -/
def jsTrimLeft (s : Str) : Str := s.dropWhile isJsWhitespace

/-- Right part of JavaScript `trim`: drop trailing whitespace. -/
def jsTrimRight (s : Str) : Str := (s.reverse.dropWhile isJsWhitespace).reverse

/-- JavaScript `String.prototype.trim`: drop whitespace at both ends. -/
def jsTrim (s : Str) : Str := jsTrimRight (jsTrimLeft s)

/-- One `data` event handler from routes.ts: append the chunk, then, if the
accumulated length exceeds the cap, truncate to the cap and append the
truncation marker. -/
def appendData (buf chunk : Str) : Str :=
  let b := buf ++ chunk
  if MAX_OUTPUT_LENGTH < b.length then b.take MAX_OUTPUT_LENGTH ++ truncMarker else b

/-- The timeout error message: `Execution timed out after 30 seconds`,
built exactly as the template literal in routes.ts renders it. -/
def timeoutMsg : Str :=
  "Execution timed out after ".toList ++ (toString (EXECUTION_TIMEOUT / 1000)).toList
    ++ " seconds".toList

/-- The synthesized nonzero-exit message `Process exited with code ${code}`;
a `close` with a null code (signal kill) renders as `null`. -/
def exitCodeMsg (code : Option Int) : Str :=
  "Process exited with code ".toList ++
    (match code with
     | none => "null".toList
     | some n => (toString n).toList)

/-- The spawn-failure message `Failed to execute: ${err.message}`. -/
def spawnFailMsg (m : Str) : Str := "Failed to execute: ".toList ++ m

/-- The `ExecuteResponse` shape from routes.ts. `executionTime` is
optional in the interface; `executePython` sets it on every path. -/
structure ExecuteResponse where
  success : Bool
  output : Option Str
  error : Option Str
  executionTime : Option Int
  deriving Repr, DecidableEq

/-- State of the deadline timer armed by `setTimeout`. -/
inductive TimerState where
  | armed
  | fired
  | cancelled
  deriving Repr, DecidableEq

/-- `clearTimeout`: cancels an armed timer; a fired or already cancelled
timer is unaffected. -/
def cancelTimer : TimerState → TimerState
  | TimerState.armed => TimerState.cancelled
  | t => t

/-- The per-invocation mutable state captured by `executePython`'s closure:
start timestamp, the two stream buffers, the deadline timer, the signal
used to kill the process (if any), and the promise's resolution. -/
structure InvState where
  startTime : Int
  stdout : Str
  stderr : Str
  timer : TimerState
  killedWith : Option Str
  result : Option ExecuteResponse
  deriving Repr, DecidableEq

/-- The events an invocation can observe: stream data, process close with
an exit code (null when killed by a signal), the deadline timer firing, and
a spawn error. -/
inductive PEvent where
  | dataOut (chunk : Str)
  | dataErr (chunk : Str)
  | close (code : Option Int)
  | timerFire
  | spawnError (msg : Str)
  deriving Repr, DecidableEq

/-- An event together with the wall-clock time at which it is delivered. -/
structure TEvent where
  time : Int
  ev : PEvent
  deriving Repr, DecidableEq

/-- Promise resolution: the first `resolve` wins, later calls are no-ops. -/
def resolve (s : InvState) (r : ExecuteResponse) : InvState :=
  match s.result with
  | some _ => s
  | none => { s with result := some r }

/-- The state at promise construction: `startTime` recorded, empty buffers,
timer armed, nothing resolved. -/
def initState (t0 : Int) : InvState :=
  { startTime := t0, stdout := [], stderr := [], timer := TimerState.armed,
    killedWith := none, result := none }

/-- One event handler dispatch of `executePython`, transcribed from
routes.ts: the stream `data` handlers accumulate-and-truncate; `close`
clears the timer and resolves the success or failure shape according to
the exit code; the timer callback kills the process with SIGTERM and
resolves the timeout shape; `error` clears the timer and resolves the
spawn-failure shape. -/
def step (s : InvState) (e : TEvent) : InvState :=
  match e.ev with
  | PEvent.dataOut c => { s with stdout := appendData s.stdout c }
  | PEvent.dataErr c => { s with stderr := appendData s.stderr c }
  | PEvent.close code =>
      let s1 := { s with timer := cancelTimer s.timer }
      let executionTime := e.time - s.startTime
      if code = some 0 then
        resolve s1
          { success := true,
            output := some (if jsTrim s.stdout = [] then noOutputMsg else jsTrim s.stdout),
            error := none,
            executionTime := some executionTime }
      else
        resolve s1
          { success := false,
            output := if jsTrim s.stdout = [] then none else some (jsTrim s.stdout),
            error := some (if jsTrim s.stderr = [] then exitCodeMsg code else jsTrim s.stderr),
            executionTime := some executionTime }
  | PEvent.timerFire =>
      match s.timer with
      | TimerState.armed =>
          let s1 := { s with timer := TimerState.fired, killedWith := some "SIGTERM".toList }
          resolve s1
            { success := false,
              output := none,
              error := some timeoutMsg,
              executionTime := some (e.time - s.startTime) }
      | _ => s
  | PEvent.spawnError msg =>
      let s1 := { s with timer := cancelTimer s.timer }
      resolve s1
        { success := false,
          output := none,
          error := some (spawnFailMsg msg),
          executionTime := some (e.time - s.startTime) }

/-- Run an invocation over a trace of delivered events. -/
def runEvents (s : InvState) (tr : List TEvent) : InvState := tr.foldl step s

/-- An event that only delivers stream data (no terminal signal). -/
def isDataEvent (e : TEvent) : Bool :=
  match e.ev with
  | PEvent.dataOut _ => true
  | PEvent.dataErr _ => true
  | _ => false

/-- The stdout chunks delivered by a trace, in order. -/
def outChunks (tr : List TEvent) : List Str :=
  tr.filterMap (fun e =>
    match e.ev with
    | PEvent.dataOut c => some c
    | _ => none)

/-- The stderr chunks delivered by a trace, in order. -/
def errChunks (tr : List TEvent) : List Str :=
  tr.filterMap (fun e =>
    match e.ev with
    | PEvent.dataErr c => some c
    | _ => none)

/-- The raw stdout text a trace delivers, before any capping. -/
def rawOut (tr : List TEvent) : Str := (outChunks tr).flatten

/-- The cap applied to a whole accumulated text: unchanged when within the
cap, otherwise the first `MAX_OUTPUT_LENGTH` characters followed by the
truncation marker. -/
def truncAll (s : Str) : Str :=
  if MAX_OUTPUT_LENGTH < s.length then s.take MAX_OUTPUT_LENGTH ++ truncMarker else s

/-! ### Basic facts about the truncation step -/

theorem truncMarker_length : truncMarker.length = 23 := by decide

theorem truncMarker_ne_nil : truncMarker ≠ [] := by decide

/-- A buffer already holding a cap-length text plus the marker absorbs any
further chunk: the data handler appends it and immediately re-truncates back
to the same string. -/
theorem appendData_of_truncated (t chunk : Str) (ht : t.length = MAX_OUTPUT_LENGTH) :
    appendData (t ++ truncMarker) chunk = t ++ truncMarker := by
  unfold appendData
  have hlen : ((t ++ truncMarker) ++ chunk).length =
      MAX_OUTPUT_LENGTH + truncMarker.length + chunk.length := by
    simp [ht, Nat.add_assoc]
  have hgt : MAX_OUTPUT_LENGTH < ((t ++ truncMarker) ++ chunk).length := by
    rw [hlen, truncMarker_length]
    omega
  rw [if_pos hgt]
  have h1 : ((t ++ truncMarker) ++ chunk).take MAX_OUTPUT_LENGTH
      = (t ++ truncMarker).take MAX_OUTPUT_LENGTH := by
    apply List.take_append_of_le_length
    simp [ht]
  have h2 : (t ++ truncMarker).take MAX_OUTPUT_LENGTH = t := by
    rw [← ht]
    exact List.take_left t truncMarker
  rw [h1, h2]

/-- One data event on a buffer of the shape `truncAll raw` produces the
buffer `truncAll (raw ++ chunk)`: the incremental capping agrees with
capping the whole accumulated text. -/
theorem appendData_truncAll (raw chunk : Str) :
    appendData (truncAll raw) chunk = truncAll (raw ++ chunk) := by
  by_cases h : MAX_OUTPUT_LENGTH < raw.length
  · have hT : truncAll raw = raw.take MAX_OUTPUT_LENGTH ++ truncMarker := by
      unfold truncAll; rw [if_pos h]
    have htake : (raw.take MAX_OUTPUT_LENGTH).length = MAX_OUTPUT_LENGTH := by
      simp [Nat.min_eq_left (Nat.le_of_lt h)]
    rw [hT, appendData_of_truncated _ chunk htake]
    have h2 : MAX_OUTPUT_LENGTH < (raw ++ chunk).length := by
      simp only [List.length_append]
      omega
    unfold truncAll
    rw [if_pos h2]
    have : (raw ++ chunk).take MAX_OUTPUT_LENGTH = raw.take MAX_OUTPUT_LENGTH :=
      List.take_append_of_le_length (Nat.le_of_lt h)
    rw [this]
  · have hT : truncAll raw = raw := by
      unfold truncAll; rw [if_neg h]
    rw [hT]
    unfold appendData truncAll
    rfl

/-- Folding the data handler over a list of chunks from an untruncated
starting point caps the concatenation of all the chunks. -/
theorem foldl_appendData_truncAll (chunks : List Str) (raw : Str) :
    chunks.foldl appendData (truncAll raw) = truncAll (raw ++ chunks.flatten) := by
  induction chunks generalizing raw with
  | nil => simp
  | cons c cs ih =>
      simp only [List.foldl_cons, List.flatten_cons]
      rw [appendData_truncAll raw c, ih (raw ++ c), List.append_assoc]

/-- The accumulated buffer after any sequence of chunks is the capped
concatenation of the chunks. -/
theorem foldl_appendData_nil (chunks : List Str) :
    chunks.foldl appendData [] = truncAll chunks.flatten := by
  have h0 : truncAll [] = [] := by unfold truncAll; simp [MAX_OUTPUT_LENGTH]
  calc chunks.foldl appendData []
      = chunks.foldl appendData (truncAll []) := by rw [h0]
    _ = truncAll ([] ++ chunks.flatten) := foldl_appendData_truncAll chunks []
    _ = truncAll chunks.flatten := by rw [List.nil_append]

/-- Every buffer the data handler can produce stays within
cap + marker length. -/
theorem truncAll_length_le (s : Str) :
    (truncAll s).length ≤ MAX_OUTPUT_LENGTH + truncMarker.length := by
  unfold truncAll
  split
  · simp only [List.length_append, List.length_take]
    omega
  · simp only [not_lt] at *
    omega

/-! ### How a run accumulates buffers and passes state along -/

theorem runEvents_append (s : InvState) (tr₁ tr₂ : List TEvent) :
    runEvents s (tr₁ ++ tr₂) = runEvents (runEvents s tr₁) tr₂ := by
  unfold runEvents
  rw [List.foldl_append]

theorem resolve_startTime (s : InvState) (r : ExecuteResponse) :
    (resolve s r).startTime = s.startTime := by
  unfold resolve; split <;> rfl

theorem resolve_stdout (s : InvState) (r : ExecuteResponse) :
    (resolve s r).stdout = s.stdout := by
  unfold resolve; split <;> rfl

theorem resolve_stderr (s : InvState) (r : ExecuteResponse) :
    (resolve s r).stderr = s.stderr := by
  unfold resolve; split <;> rfl

theorem step_startTime (s : InvState) (e : TEvent) : (step s e).startTime = s.startTime := by
  rcases e with ⟨t, ev⟩
  cases ev <;> simp only [step] <;> (repeat' split) <;>
    simp [resolve_startTime]

theorem runEvents_startTime (s : InvState) (tr : List TEvent) :
    (runEvents s tr).startTime = s.startTime := by
  induction tr generalizing s with
  | nil => rfl
  | cons e tr ih =>
      have hrun : runEvents s (e :: tr) = runEvents (step s e) tr := rfl
      rw [hrun, ih, step_startTime]

theorem step_stdout (s : InvState) (e : TEvent) :
    (step s e).stdout = match e.ev with
      | PEvent.dataOut c => appendData s.stdout c
      | _ => s.stdout := by
  rcases e with ⟨t, ev⟩
  cases ev <;> simp only [step] <;> (repeat' split) <;>
    simp [resolve_stdout]

theorem step_stderr (s : InvState) (e : TEvent) :
    (step s e).stderr = match e.ev with
      | PEvent.dataErr c => appendData s.stderr c
      | _ => s.stderr := by
  rcases e with ⟨t, ev⟩
  cases ev <;> simp only [step] <;> (repeat' split) <;>
    simp [resolve_stderr]

/-- The stdout buffer of a run is the fold of the data handler over exactly
the stdout chunks of the trace. -/
theorem runEvents_stdout (s : InvState) (tr : List TEvent) :
    (runEvents s tr).stdout = (outChunks tr).foldl appendData s.stdout := by
  induction tr generalizing s with
  | nil => rfl
  | cons e tr ih =>
      have hrun : runEvents s (e :: tr) = runEvents (step s e) tr := rfl
      rw [hrun, ih]
      rcases e with ⟨t, ev⟩
      cases ev <;> simp [outChunks, step_stdout, List.filterMap_cons]

theorem runEvents_stderr (s : InvState) (tr : List TEvent) :
    (runEvents s tr).stderr = (errChunks tr).foldl appendData s.stderr := by
  induction tr generalizing s with
  | nil => rfl
  | cons e tr ih =>
      have hrun : runEvents s (e :: tr) = runEvents (step s e) tr := rfl
      rw [hrun, ih]
      rcases e with ⟨t, ev⟩
      cases ev <;> simp [errChunks, step_stderr, List.filterMap_cons]

/-- A data-only trace neither resolves the promise nor touches the timer or
the kill flag. -/
theorem runEvents_dataOnly (s : InvState) (tr : List TEvent)
    (h : ∀ e ∈ tr, isDataEvent e = true) :
    (runEvents s tr).result = s.result ∧ (runEvents s tr).timer = s.timer ∧
      (runEvents s tr).killedWith = s.killedWith := by
  induction tr generalizing s with
  | nil => exact ⟨rfl, rfl, rfl⟩
  | cons e tr ih =>
      have he : isDataEvent e = true := h e (List.mem_cons_self e tr)
      have htr : ∀ e' ∈ tr, isDataEvent e' = true := fun e' he' => h e' (List.mem_cons_of_mem e he')
      have hstep : (step s e).result = s.result ∧ (step s e).timer = s.timer ∧
          (step s e).killedWith = s.killedWith := by
        rcases e with ⟨t, ev⟩
        cases ev <;> simp_all [isDataEvent, step]
      have hind := ih (step s e) htr
      have hrun : runEvents s (e :: tr) = runEvents (step s e) tr := rfl
      rw [hrun, hind.1, hind.2.1, hind.2.2, hstep.1, hstep.2.1, hstep.2.2]
      exact ⟨rfl, rfl, rfl⟩

/-! ### Facts about JavaScript trim -/

theorem jsTrimLeft_cons_of_ws (c : Char) (l : Str) (h : isJsWhitespace c = true) :
    jsTrimLeft (c :: l) = jsTrimLeft l := by
  simp [jsTrimLeft, List.dropWhile_cons, h]

theorem jsTrimLeft_cons_of_not_ws (c : Char) (l : Str) (h : isJsWhitespace c = false) :
    jsTrimLeft (c :: l) = c :: l := by
  simp [jsTrimLeft, List.dropWhile_cons, h]

/-- The truncation marker ends in a non-whitespace character, so trimming
on the right never removes anything from a buffer ending in the marker. -/
theorem jsTrimRight_append_truncMarker (y : Str) :
    jsTrimRight (y ++ truncMarker) = y ++ truncMarker := by
  unfold jsTrimRight
  rw [List.reverse_append, List.dropWhile_append]
  have h1 : truncMarker.reverse.dropWhile isJsWhitespace = truncMarker.reverse := by decide
  have h2 : (truncMarker.reverse.dropWhile isJsWhitespace).isEmpty = false := by decide
  rw [h2, h1]
  simp

/-- Trimming a truncated buffer whose retained prefix starts with a
non-whitespace character removes nothing at all. -/
theorem jsTrim_trunc_of_head_not_ws (c : Char) (x : Str) (h : isJsWhitespace c = false) :
    jsTrim ((c :: x) ++ truncMarker) = (c :: x) ++ truncMarker := by
  unfold jsTrim
  rw [List.cons_append, jsTrimLeft_cons_of_not_ws _ _ h, ← List.cons_append,
    jsTrimRight_append_truncMarker]

theorem jsTrimLeft_length_le (s : Str) : (jsTrimLeft s).length ≤ s.length :=
  (List.dropWhile_sublist _).length_le

theorem jsTrimRight_length_le (s : Str) : (jsTrimRight s).length ≤ s.length := by
  unfold jsTrimRight
  have h := (List.dropWhile_sublist (l := s.reverse) isJsWhitespace).length_le
  simpa using h

/-- JavaScript `trim` never lengthens a string. -/
theorem jsTrim_length_le (s : Str) : (jsTrim s).length ≤ s.length :=
  Nat.le_trans (jsTrimRight_length_le _) (jsTrimLeft_length_le _)

/-! ### Characterization of the terminal event handlers -/

theorem resolve_of_none (s : InvState) (r : ExecuteResponse) (h : s.result = none) :
    resolve s r = { s with result := some r } := by
  simp [resolve, h]

theorem resolve_of_some (s : InvState) (r r0 : ExecuteResponse) (h : s.result = some r0) :
    resolve s r = s := by
  simp [resolve, h]

/-- The `close` handler on an unresolved invocation: the timer is cleared
and the promise resolves to the success shape on exit code zero, otherwise
to the failure shape. -/
theorem step_close_eq (s : InvState) (t : Int) (code : Option Int) (h : s.result = none) :
    step s ⟨t, PEvent.close code⟩ =
      { s with timer := cancelTimer s.timer,
               result := some (
          if code = some 0 then
            { success := true,
              output := some (if jsTrim s.stdout = [] then noOutputMsg else jsTrim s.stdout),
              error := none,
              executionTime := some (t - s.startTime) }
          else
            { success := false,
              output := if jsTrim s.stdout = [] then none else some (jsTrim s.stdout),
              error := some (if jsTrim s.stderr = [] then exitCodeMsg code else jsTrim s.stderr),
              executionTime := some (t - s.startTime) }) } := by
  have h1 : ({ s with timer := cancelTimer s.timer } : InvState).result = none := h
  simp only [step]
  split
  · rw [resolve_of_none _ _ h1]
  · rw [resolve_of_none _ _ h1]

/-- The deadline timer callback on an armed, unresolved invocation: the
process is killed with SIGTERM and the promise resolves to the timeout
shape. -/
theorem step_timerFire_eq (s : InvState) (t : Int)
    (harm : s.timer = TimerState.armed) (h : s.result = none) :
    step s ⟨t, PEvent.timerFire⟩ =
      { s with timer := TimerState.fired, killedWith := some ("SIGTERM".toList),
               result := some { success := false, output := none, error := some timeoutMsg,
                                executionTime := some (t - s.startTime) } } := by
  have h1 : ({ s with timer := TimerState.fired, killedWith := some ("SIGTERM".toList) } : InvState).result = none := h
  simp only [step, harm]
  rw [resolve_of_none _ _ h1]

/-- The spawn `error` handler on an unresolved invocation: the timer is
cleared and the promise resolves to the spawn-failure shape. -/
theorem step_spawnError_eq (s : InvState) (t : Int) (msg : Str) (h : s.result = none) :
    step s ⟨t, PEvent.spawnError msg⟩ =
      { s with timer := cancelTimer s.timer,
               result := some { success := false, output := none,
                                error := some (spawnFailMsg msg),
                                executionTime := some (t - s.startTime) } } := by
  have h1 : ({ s with timer := cancelTimer s.timer } : InvState).result = none := h
  simp only [step]
  rw [resolve_of_none _ _ h1]

theorem runEvents_single (s : InvState) (e : TEvent) : runEvents s [e] = step s e := rfl

/-! ### Single resolution and timer discipline -/

theorem resolve_timer (s : InvState) (r : ExecuteResponse) : (resolve s r).timer = s.timer := by
  unfold resolve; split <;> rfl

theorem cancelTimer_ne_armed (ts : TimerState) : cancelTimer ts ≠ TimerState.armed := by
  cases ts <;> simp [cancelTimer]

/-- A no-op timer event: a fired or cancelled timer's callback never runs
again. -/
theorem step_timerFire_of_not_armed (s : InvState) (t : Int)
    (h : s.timer ≠ TimerState.armed) : step s ⟨t, PEvent.timerFire⟩ = s := by
  simp only [step]

/-- The promise resolves at most once: an already resolved invocation keeps
its result through every later event. -/
theorem step_result_mono (s : InvState) (e : TEvent) (r : ExecuteResponse)
    (h : s.result = some r) : (step s e).result = some r := by
  rcases e with ⟨t, ev⟩
  cases ev with
  | dataOut c => exact h
  | dataErr c => exact h
  | close code =>
      have h1 : ({ s with timer := cancelTimer s.timer } : InvState).result = some r := h
      simp only [step]
      split <;> rw [resolve_of_some _ _ _ h1] <;> exact h1
  | timerFire =>
      by_cases harm : s.timer = TimerState.armed
      · have h1 : ({ s with timer := TimerState.fired, killedWith := some ("SIGTERM".toList) } : InvState).result = some r := h
        simp only [step, harm]
        rw [resolve_of_some _ _ _ h1]
        exact h1
      · rw [step_timerFire_of_not_armed s t harm]
        exact h
  | spawnError msg =>
      have h1 : ({ s with timer := cancelTimer s.timer } : InvState).result = some r := h
      simp only [step]
      rw [resolve_of_some _ _ _ h1]
      exact h1

theorem runEvents_result_mono (tr : List TEvent) (s : InvState) (r : ExecuteResponse)
    (h : s.result = some r) : (runEvents s tr).result = some r := by
  induction tr generalizing s with
  | nil => exact h
  | cons e tr ih => exact ih (step s e) (step_result_mono s e r h)

theorem step_timer_close (s : InvState) (t : Int) (code : Option Int) :
    (step s ⟨t, PEvent.close code⟩).timer = cancelTimer s.timer := by
  simp only [step]
  split <;> rw [resolve_timer]

theorem step_timer_spawnError (s : InvState) (t : Int) (msg : Str) :
    (step s ⟨t, PEvent.spawnError msg⟩).timer = cancelTimer s.timer := by
  simp only [step]
  rw [resolve_timer]

/-- Invariant: whenever the promise is resolved, the deadline timer is no
longer armed (it was cancelled, or it is the one that fired). -/
theorem step_timerOk (s : InvState) (e : TEvent)
    (hI : ∀ r, s.result = some r → s.timer ≠ TimerState.armed) :
    ∀ r, (step s e).result = some r → (step s e).timer ≠ TimerState.armed := by
  rcases e with ⟨t, ev⟩
  cases ev with
  | dataOut c => exact hI
  | dataErr c => exact hI
  | close code =>
      intro r _
      rw [step_timer_close]
      exact cancelTimer_ne_armed s.timer
  | timerFire =>
      intro r hr
      by_cases harm : s.timer = TimerState.armed
      · have h2 : (step s ⟨t, PEvent.timerFire⟩).timer = TimerState.fired := by
          simp only [step, harm]
          rw [resolve_timer]
        rw [h2]
        simp
      · rw [step_timerFire_of_not_armed s t harm] at hr ⊢
        exact hI r hr
  | spawnError msg =>
      intro r _
      rw [step_timer_spawnError]
      exact cancelTimer_ne_armed s.timer

theorem runEvents_timerOk (tr : List TEvent) (s : InvState)
    (hI : ∀ r, s.result = some r → s.timer ≠ TimerState.armed) :
    ∀ r, (runEvents s tr).result = some r → (runEvents s tr).timer ≠ TimerState.armed := by
  induction tr generalizing s with
  | nil => exact hI
  | cons e tr ih => exact ih (step s e) (step_timerOk s e hI)

/-- A freshly produced result (resolution happening at this very event)
carries the elapsed time measured at the event, and populates exactly one
of the success/failure branches. -/
theorem step_new_result (s : InvState) (e : TEvent) (r : ExecuteResponse)
    (hnone : s.result = none) (hr : (step s e).result = some r) :
    r.executionTime = some (e.time - s.startTime) ∧
    (r.success = true → r.error = none) ∧
    (r.success = false → r.error ≠ none) := by
  rcases e with ⟨t, ev⟩
  cases ev with
  | dataOut c =>
      rw [show (step s ⟨t, PEvent.dataOut c⟩).result = s.result from rfl, hnone] at hr
      cases hr
  | dataErr c =>
      rw [show (step s ⟨t, PEvent.dataErr c⟩).result = s.result from rfl, hnone] at hr
      cases hr
  | close code =>
      rw [step_close_eq s t code hnone] at hr
      have hr2 : (if code = some 0 then
          ({ success := true,
             output := some (if jsTrim s.stdout = [] then noOutputMsg else jsTrim s.stdout),
             error := none, executionTime := some (t - s.startTime) } : ExecuteResponse)
        else
          { success := false,
            output := if jsTrim s.stdout = [] then none else some (jsTrim s.stdout),
            error := some (if jsTrim s.stderr = [] then exitCodeMsg code else jsTrim s.stderr),
            executionTime := some (t - s.startTime) }) = r := by
        injection hr
      by_cases hc : code = some 0
      · rw [if_pos hc] at hr2
        subst hr2
        refine ⟨rfl, fun _ => rfl, fun hfalse => ?_⟩
        exact absurd hfalse (by simp)
      · rw [if_neg hc] at hr2
        subst hr2
        refine ⟨rfl, fun htrue => ?_, fun _ => ?_⟩
        · exact absurd htrue (by simp)
        · simp
  | timerFire =>
      by_cases harm : s.timer = TimerState.armed
      · rw [step_timerFire_eq s t harm hnone] at hr
        have hr2 : ({ success := false, output := none, error := some timeoutMsg, executionTime := some (t - s.startTime) } : ExecuteResponse) = r := by
          injection hr
        subst hr2
        refine ⟨rfl, fun htrue => ?_, fun _ => ?_⟩
        · exact absurd htrue (by simp)
        · simp
      · rw [step_timerFire_of_not_armed s t harm, hnone] at hr
        cases hr
  | spawnError msg =>
      rw [step_spawnError_eq s t msg hnone] at hr
      have hr2 : ({ success := false, output := none, error := some (spawnFailMsg msg), executionTime := some (t - s.startTime) } : ExecuteResponse) = r := by
        injection hr
      subst hr2
      refine ⟨rfl, fun htrue => ?_, fun _ => ?_⟩
      · exact absurd htrue (by simp)
      · simp

/-- Every result a run can resolve is well-formed: exactly one branch
populated and a non-negative elapsed time, provided events are not
delivered before the start timestamp. -/
theorem runEvents_result_wf (tr : List TEvent) (s : InvState)
    (hs : ∀ e ∈ tr, s.startTime ≤ e.time)
    (hI : ∀ r, s.result = some r →
      (r.success = true → r.error = none) ∧ (r.success = false → r.error ≠ none) ∧
        ∃ m : Int, r.executionTime = some m ∧ 0 ≤ m) :
    ∀ r, (runEvents s tr).result = some r →
      (r.success = true → r.error = none) ∧ (r.success = false → r.error ≠ none) ∧
        ∃ m : Int, r.executionTime = some m ∧ 0 ≤ m := by
  induction tr generalizing s with
  | nil => exact hI
  | cons e tr ih =>
      have hs' : ∀ e' ∈ tr, (step s e).startTime ≤ e'.time := by
        intro e' he'
        rw [step_startTime]
        exact hs e' (List.mem_cons_of_mem e he')
      have hI' : ∀ r, (step s e).result = some r →
          (r.success = true → r.error = none) ∧ (r.success = false → r.error ≠ none) ∧
            ∃ m : Int, r.executionTime = some m ∧ 0 ≤ m := by
        intro r hr
        rcases hres : s.result with _ | r0
        · have hnew := step_new_result s e r hres hr
          refine ⟨hnew.2.1, hnew.2.2, e.time - s.startTime, hnew.1, ?_⟩
          have := hs e (List.mem_cons_self e tr)
          omega
        · have := step_result_mono s e r0 hres
          rw [this] at hr
          injection hr with hr
          subst hr
          exact hI r0 hres
      exact ih (step s e) hs' hI'

/-! ### The request handler -/

/-- A JavaScript request-body value, as far as the handler's validation can
distinguish them. -/
inductive JSValue where
  | vStr (s : Str)
  | vNum (n : Int)
  | vBool (b : Bool)
  | vNull
  | vUndefined
  deriving Repr, DecidableEq

/-- JavaScript truthiness of a body value: the empty string, zero, `false`,
`null` and `undefined` are falsy. -/
def jsTruthy : JSValue → Bool
  | JSValue.vStr s => !s.isEmpty
  | JSValue.vNum n => n != 0
  | JSValue.vBool b => b
  | JSValue.vNull => false
  | JSValue.vUndefined => false

/-- `typeof script === "string"`. -/
def jsIsString : JSValue → Bool
  | JSValue.vStr _ => true
  | _ => false

/-- The string content of a string-valued body field. -/
def jsStrVal : JSValue → Str
  | JSValue.vStr s => s
  | _ => []

/-- What the POST `/api/execute` handler produces: a transport status, a
response body, and whether the engine was started. -/
structure HandlerResponse where
  status : Nat
  body : ExecuteResponse
  engineCalled : Bool
  deriving Repr, DecidableEq

/-- The validation-rejection body `{success:false, error:"Script is required"}`. -/
def validationError : ExecuteResponse :=
  { success := false, output := none, error := some ("Script is required".toList),
    executionTime := none }

/-- The POST `/api/execute` handler from routes.ts, parameterized by the
engine's result for a given script: reject with status 400 when `script` is
falsy or not a string, otherwise run the engine and render its result
verbatim with status 200. -/
def handleExecute (script : JSValue) (engine : Str → ExecuteResponse) : HandlerResponse :=
  if !jsTruthy script || !jsIsString script then
    { status := 400, body := validationError, engineCalled := false }
  else
    { status := 200, body := engine (jsStrVal script), engineCalled := true }

/-! ### Two concurrent invocations -/

/-- Two concurrent invocations: a world event is tagged with the call it
belongs to (`false` = first call, `true` = second call), and a step only
touches that call's state. -/
def worldStep (p : InvState × InvState) (e : Bool × TEvent) : InvState × InvState :=
  match e with
  | (false, ev) => (step p.1 ev, p.2)
  | (true, ev) => (p.1, step p.2 ev)

/-- Run both invocations over an interleaved trace of tagged events. -/
def worldRun (p : InvState × InvState) (tr : List (Bool × TEvent)) : InvState × InvState :=
  tr.foldl worldStep p

/-- The events belonging to one call, in delivery order. -/
def callEvents (i : Bool) (tr : List (Bool × TEvent)) : List TEvent :=
  (tr.filter (fun e => e.1 == i)).map Prod.snd

/-- Each call's final state is exactly the single-invocation run over its
own events: the interleaving and the other call's events are irrelevant. -/
theorem worldRun_proj (tr : List (Bool × TEvent)) (p : InvState × InvState) :
    (worldRun p tr).1 = runEvents p.1 (callEvents false tr) ∧
    (worldRun p tr).2 = runEvents p.2 (callEvents true tr) := by
  induction tr generalizing p with
  | nil => exact ⟨rfl, rfl⟩
  | cons e tr ih =>
      rcases e with ⟨i, ev⟩
      cases i
      · have hw : worldRun p ((false, ev) :: tr) = worldRun (step p.1 ev, p.2) tr := rfl
        have hc0 : callEvents false ((false, ev) :: tr) = ev :: callEvents false tr := by
          simp [callEvents]
        have hc1 : callEvents true ((false, ev) :: tr) = callEvents true tr := by
          simp [callEvents]
        rw [hw, hc0, hc1]
        exact ⟨(ih (step p.1 ev, p.2)).1, (ih (step p.1 ev, p.2)).2⟩
      · have hw : worldRun p ((true, ev) :: tr) = worldRun (p.1, step p.2 ev) tr := rfl
        have hc0 : callEvents false ((true, ev) :: tr) = callEvents false tr := by
          simp [callEvents]
        have hc1 : callEvents true ((true, ev) :: tr) = ev :: callEvents true tr := by
          simp [callEvents]
        rw [hw, hc0, hc1]
        exact ⟨(ih (p.1, step p.2 ev)).1, (ih (p.1, step p.2 ev)).2⟩

/-! ### The child process environment -/

/-- The environment key forced for the interpreter. -/
def envKey : Str := "PYTHONIOENCODING".toList

/-- The forced value: UTF-8 text encoding for interpreter I/O. -/
def envVal : Str := "utf-8".toList

/-- JavaScript object-spread-with-override `{...o, k: v}` on an environment
object seen as an ordered key/value list: if the key exists its value is
replaced in place, otherwise the pair is appended. -/
def setKey (o : List (Str × Str)) (k v : Str) : List (Str × Str) :=
  if (o.map Prod.fst).contains k then
    o.map (fun p => if p.1 == k then (k, v) else p)
  else
    o ++ [(k, v)]

/-- The environment passed to `spawn`:
`{ ...globalThis.process.env, PYTHONIOENCODING: "utf-8" }`. -/
def spawnEnv (parent : List (Str × Str)) : List (Str × Str) := setKey parent envKey envVal

/-- Look a key up in an environment object (first matching entry wins). -/
def lookupKey (o : List (Str × Str)) (k : Str) : Option Str :=
  (o.find? (fun p => p.1 == k)).map Prod.snd

theorem lookup_map_set_of_mem (o : List (Str × Str)) (k v : Str)
    (h : ∃ p ∈ o, p.1 = k) :
    lookupKey (o.map (fun p => if p.1 == k then (k, v) else p)) k = some v := by
  induction o with
  | nil => rcases h with ⟨p, hp, _⟩; cases hp
  | cons q o ih =>
      rw [List.map_cons]
      by_cases hq : q.1 = k
      · have hfq : (if q.1 == k then (k, v) else q) = (k, v) := by
          rw [if_pos (beq_iff_eq.mpr hq)]
        rw [hfq]
        unfold lookupKey
        rw [List.find?_cons_of_pos _ (by simp)]
        rfl
      · have hfq : (if q.1 == k then (k, v) else q) = q := by
          rw [if_neg]
          simp [hq]
        rw [hfq]
        have h' : ∃ p ∈ o, p.1 = k := by
          rcases h with ⟨p, hp, hpk⟩
          rcases List.mem_cons.mp hp with rfl | hpo
          · exact absurd hpk hq
          · exact ⟨p, hpo, hpk⟩
        unfold lookupKey
        rw [List.find?_cons_of_neg _ (by simp [hq])]
        exact ih h'

theorem lookup_map_set_of_ne (o : List (Str × Str)) (k0 v k : Str) (hk : k ≠ k0) :
    lookupKey (o.map (fun p => if p.1 == k0 then (k0, v) else p)) k = lookupKey o k := by
  induction o with
  | nil => rfl
  | cons q o ih =>
      rw [List.map_cons]
      by_cases hq : q.1 = k0
      · have hfq : (if q.1 == k0 then (k0, v) else q) = (k0, v) := by
          rw [if_pos (beq_iff_eq.mpr hq)]
        rw [hfq]
        unfold lookupKey
        rw [List.find?_cons_of_neg _ (by simp [Ne.symm hk]),
          List.find?_cons_of_neg _ (by simp [hq, Ne.symm hk])]
        exact ih
      · have hfq : (if q.1 == k0 then (k0, v) else q) = q := by
          rw [if_neg]
          simp [hq]
        rw [hfq]
        by_cases hqk : q.1 = k
        · unfold lookupKey
          rw [List.find?_cons_of_pos _ (by simp [hqk]),
            List.find?_cons_of_pos _ (by simp [hqk])]
        · unfold lookupKey
          rw [List.find?_cons_of_neg _ (by simp [hqk]),
            List.find?_cons_of_neg _ (by simp [hqk])]
          exact ih

theorem lookup_append_single_eq (o : List (Str × Str)) (k0 v : Str)
    (h : ∀ p ∈ o, p.1 ≠ k0) :
    lookupKey (o ++ [(k0, v)]) k0 = some v := by
  induction o with
  | nil =>
      unfold lookupKey
      rw [List.nil_append, List.find?_cons_of_pos _ (by simp)]
      rfl
  | cons q o ih =>
      have hq : q.1 ≠ k0 := h q (List.mem_cons_self q o)
      have h' : ∀ p ∈ o, p.1 ≠ k0 := fun p hp => h p (List.mem_cons_of_mem q hp)
      rw [List.cons_append]
      unfold lookupKey
      rw [List.find?_cons_of_neg _ (by simp [hq])]
      exact ih h'

theorem lookup_append_single_ne (o : List (Str × Str)) (k0 v k : Str) (hk : k ≠ k0) :
    lookupKey (o ++ [(k0, v)]) k = lookupKey o k := by
  induction o with
  | nil =>
      unfold lookupKey
      rw [List.nil_append, List.find?_cons_of_neg _ (by simp [Ne.symm hk])]
  | cons q o ih =>
      rw [List.cons_append]
      by_cases hqk : q.1 = k
      · unfold lookupKey
        rw [List.find?_cons_of_pos _ (by simp [hqk]),
          List.find?_cons_of_pos _ (by simp [hqk])]
      · unfold lookupKey
        rw [List.find?_cons_of_neg _ (by simp [hqk]),
          List.find?_cons_of_neg _ (by simp [hqk])]
        exact ih

/-- Spread-with-override, observed through lookups: the overridden key maps
to the forced value, every other key maps to what the parent maps it to. -/
theorem lookupKey_setKey (o : List (Str × Str)) (k0 v k : Str) :
    lookupKey (setKey o k0 v) k = if k = k0 then some v else lookupKey o k := by
  unfold setKey
  by_cases hc : (o.map Prod.fst).contains k0
  · rw [if_pos hc]
    by_cases hk : k = k0
    · subst hk
      rw [if_pos rfl]
      have hmem : ∃ p ∈ o, p.1 = k := by
        have : k ∈ o.map Prod.fst := by
          simpa [List.elem_iff] using hc
        simpa using List.mem_map.mp this
      exact lookup_map_set_of_mem o k v hmem
    · rw [if_neg hk]
      exact lookup_map_set_of_ne o k0 v k hk
  · rw [if_neg hc]
    by_cases hk : k = k0
    · subst hk
      rw [if_pos rfl]
      have hno : ∀ p ∈ o, p.1 ≠ k := by
        intro p hp hpk
        apply hc
        have : k ∈ o.map Prod.fst := List.mem_map.mpr ⟨p, hp, hpk⟩
        simpa [List.elem_iff] using this
      exact lookup_append_single_eq o k v hno
    · rw [if_neg hk]
      exact lookup_append_single_ne o k0 v k hk

/-- The key set is preserved, except possibly for appending the forced key
when it was absent: no other variable is added or removed. -/
theorem setKey_keys (o : List (Str × Str)) (k0 v : Str) :
    (setKey o k0 v).map Prod.fst = o.map Prod.fst ∨
    (setKey o k0 v).map Prod.fst = o.map Prod.fst ++ [k0] := by
  unfold setKey
  by_cases hc : (o.map Prod.fst).contains k0
  · left
    rw [if_pos hc, List.map_map]
    apply List.map_congr_left
    intro p _
    by_cases hp : p.1 = k0
    · have hpb : (p.1 == k0) = true := by simp [hp]
      simp [Function.comp, hpb, hp]
    · have hpb : (p.1 == k0) = false := by simp [hp]
      simp [Function.comp, hpb]
  · right
    rw [if_neg hc]
    simp

/-! ### Remaining helper definitions and characterizations -/

/-- The raw stderr text a trace delivers, before any capping. -/
def rawErr (tr : List TEvent) : Str := (errChunks tr).flatten

theorem runEvents_init_stdout (t0 : Int) (tr : List TEvent) :
    (runEvents (initState t0) tr).stdout = truncAll (rawOut tr) := by
  rw [runEvents_stdout]
  exact foldl_appendData_nil (outChunks tr)

theorem runEvents_init_stderr (t0 : Int) (tr : List TEvent) :
    (runEvents (initState t0) tr).stderr = truncAll (rawErr tr) := by
  rw [runEvents_stderr]
  exact foldl_appendData_nil (errChunks tr)

/-! ### The claims -/

/-- Claim C1: for every script whose process exits with status code zero —
modelled as a trace of stream data events followed by a `close` with exit
code zero — the engine resolves with `success := true`, output equal to the
captured (capped) stdout trimmed of surrounding whitespace, and the fixed
placeholder `(no output)` substituted when that trimmed stdout is empty
(never an absent field), with the elapsed time attached. -/
theorem claim_C1 (t0 t : Int) (tr : List TEvent)
    (hdata : ∀ e ∈ tr, isDataEvent e = true) :
    (runEvents (initState t0) (tr ++ [⟨t, PEvent.close (some 0)⟩])).result =
      some { success := true,
             output := some (if jsTrim (truncAll (rawOut tr)) = [] then noOutputMsg
                             else jsTrim (truncAll (rawOut tr))),
             error := none,
             executionTime := some (t - t0) } := by
  have hres : (runEvents (initState t0) tr).result = none :=
    (runEvents_dataOnly (initState t0) tr hdata).1
  have hstdout := runEvents_init_stdout t0 tr
  have hstart : (runEvents (initState t0) tr).startTime = t0 :=
    runEvents_startTime (initState t0) tr
  rw [runEvents_append, runEvents_single, step_close_eq _ _ _ hres, if_pos rfl,
    hstdout, hstart]

/-- Witness for C1: a script printing ` hi ` (with surrounding whitespace)
and exiting 0 yields success with trimmed output `hi`. -/
theorem claim_C1_witness :
    (runEvents (initState 0)
        ([⟨1, PEvent.dataOut (" hi ".toList)⟩] ++ [⟨7, PEvent.close (some 0)⟩])).result =
      some { success := true, output := some ("hi".toList), error := none,
             executionTime := some 7 } := by
  rw [claim_C1 0 7 [⟨1, PEvent.dataOut (" hi ".toList)⟩] (by decide)]
  decide

/-- Claim C3: a process still running (only data events so far) when the
deadline fires at `startTime + EXECUTION_TIMEOUT` is killed with SIGTERM,
and the call resolves with `success := false`, an error message stating the
configured timeout duration (30 seconds), and elapsed time measured from
spawn to the timer firing — exactly the deadline. -/
theorem claim_C3 (t0 : Int) (tr : List TEvent)
    (hdata : ∀ e ∈ tr, isDataEvent e = true) :
    (runEvents (initState t0) (tr ++ [⟨t0 + EXECUTION_TIMEOUT, PEvent.timerFire⟩])).killedWith
        = some ("SIGTERM".toList) ∧
    (runEvents (initState t0) (tr ++ [⟨t0 + EXECUTION_TIMEOUT, PEvent.timerFire⟩])).result =
      some { success := false, output := none, error := some timeoutMsg,
             executionTime := some EXECUTION_TIMEOUT } ∧
    timeoutMsg = ("Execution timed out after 30 seconds".toList) := by
  have h3 := runEvents_dataOnly (initState t0) tr hdata
  have hres : (runEvents (initState t0) tr).result = none := h3.1
  have htimer : (runEvents (initState t0) tr).timer = TimerState.armed := h3.2.1
  have hstart : (runEvents (initState t0) tr).startTime = t0 :=
    runEvents_startTime (initState t0) tr
  have harith : t0 + EXECUTION_TIMEOUT - t0 = EXECUTION_TIMEOUT := by ring
  rw [runEvents_append, runEvents_single, step_timerFire_eq _ _ htimer hres, hstart, harith]
  exact ⟨rfl, rfl, by decide⟩

/-- Witness for C3: a silent script killed at the deadline. -/
theorem claim_C3_witness :
    (runEvents (initState 5) (([] : List TEvent) ++ [⟨5 + EXECUTION_TIMEOUT, PEvent.timerFire⟩])).result =
      some { success := false, output := none, error := some timeoutMsg,
             executionTime := some EXECUTION_TIMEOUT } :=
  (claim_C3 5 [] (by simp)).2.1

/-- Claim C5: a process exiting with a nonzero status yields
`success := false`, output equal to trimmed stdout when non-empty and
omitted otherwise, and error equal to trimmed stderr when non-empty,
otherwise the synthesized message embedding the numeric exit code. -/
theorem claim_C5 (t0 t n : Int) (hn : n ≠ 0) (tr : List TEvent)
    (hdata : ∀ e ∈ tr, isDataEvent e = true) :
    (runEvents (initState t0) (tr ++ [⟨t, PEvent.close (some n)⟩])).result =
      some { success := false,
             output := if jsTrim (truncAll (rawOut tr)) = [] then none
                       else some (jsTrim (truncAll (rawOut tr))),
             error := some (if jsTrim (truncAll (rawErr tr)) = [] then exitCodeMsg (some n)
                            else jsTrim (truncAll (rawErr tr))),
             executionTime := some (t - t0) } ∧
    exitCodeMsg (some n) = ("Process exited with code ".toList) ++ (toString n).toList := by
  have hres : (runEvents (initState t0) tr).result = none :=
    (runEvents_dataOnly (initState t0) tr hdata).1
  have hstdout := runEvents_init_stdout t0 tr
  have hstderr := runEvents_init_stderr t0 tr
  have hstart : (runEvents (initState t0) tr).startTime = t0 :=
    runEvents_startTime (initState t0) tr
  have hc : ¬ ((some n : Option Int) = some 0) := by simp [hn]
  rw [runEvents_append, runEvents_single, step_close_eq _ _ _ hres, if_neg hc,
    hstdout, hstderr, hstart]
  exact ⟨rfl, rfl⟩

/-- Witness for C5: exit code 3 with no output at all yields a synthesized
error message carrying the exit code. -/
theorem claim_C5_witness :
    (runEvents (initState 0) (([] : List TEvent) ++ [⟨9, PEvent.close (some 3)⟩])).result =
      some { success := false, output := none, error := some (exitCodeMsg (some 3)),
             executionTime := some 9 } ∧
    exitCodeMsg (some 3) = ("Process exited with code 3".toList) := by
  have h := claim_C5 0 9 3 (by decide) [] (by simp)
  refine ⟨?_, by decide⟩
  rw [h.1]
  decide

/-- Claim C6: every result the engine resolves populates exactly one
success/failure branch — `error` is never present alongside `success = true`
and always present on failure — and carries a present, non-negative elapsed
time, whatever mix of terminal signals the trace delivers (given no event
is delivered before the start timestamp). -/
theorem claim_C6 (t0 : Int) (tr : List TEvent) (ht : ∀ e ∈ tr, t0 ≤ e.time)
    (r : ExecuteResponse) (hr : (runEvents (initState t0) tr).result = some r) :
    (r.success = true → r.error = none) ∧ (r.success = false → r.error ≠ none) ∧
      ∃ m : Int, r.executionTime = some m ∧ 0 ≤ m := by
  apply runEvents_result_wf tr (initState t0) ?_ ?_ r hr
  · intro e he
    exact ht e he
  · intro r0 h0
    exact absurd h0 (by simp [initState])

/-- Witness for C6 on the nonzero-exit path. -/
theorem claim_C6_witness :
    ∃ r : ExecuteResponse,
      (runEvents (initState 0) [⟨4, PEvent.close (some 2)⟩]).result = some r ∧
      (r.success = true → r.error = none) ∧ (r.success = false → r.error ≠ none) ∧
      ∃ m : Int, r.executionTime = some m ∧ 0 ≤ m := by
  refine ⟨{ success := false, output := none, error := some (exitCodeMsg (some 2)),
            executionTime := some 4 }, by decide, ?_⟩
  exact claim_C6 0 [⟨4, PEvent.close (some 2)⟩] (by decide) _ (by decide)

/-- Claim C7: the promise resolves exactly once — the first terminal signal
fixes the result and no later event (data, close, timer, error) can change
it — and after resolution the deadline timer is never left armed: every
terminating branch either cancelled it or is the timer itself having
fired. -/
theorem claim_C7 (t0 : Int) (tr ext : List TEvent) (r : ExecuteResponse)
    (hr : (runEvents (initState t0) tr).result = some r) :
    (runEvents (initState t0) (tr ++ ext)).result = some r ∧
    (runEvents (initState t0) (tr ++ ext)).timer ≠ TimerState.armed := by
  have hmono : (runEvents (initState t0) (tr ++ ext)).result = some r := by
    rw [runEvents_append]
    exact runEvents_result_mono ext _ r hr
  refine ⟨hmono, ?_⟩
  exact runEvents_timerOk (tr ++ ext) (initState t0)
    (fun r0 h0 => absurd h0 (by simp [initState])) r hmono

/-- Witness for C7: a resolved call ignores a later timer firing and its
timer is not armed. -/
theorem claim_C7_witness :
    (runEvents (initState 0) ([⟨2, PEvent.close (some 0)⟩] ++ [⟨3, PEvent.timerFire⟩])).result =
      some { success := true, output := some noOutputMsg, error := none,
             executionTime := some 2 } ∧
    (runEvents (initState 0) ([⟨2, PEvent.close (some 0)⟩] ++ [⟨3, PEvent.timerFire⟩])).timer ≠
      TimerState.armed :=
  claim_C7 0 [⟨2, PEvent.close (some 0)⟩] [⟨3, PEvent.timerFire⟩] _ (by decide)

theorem handleExecute_invalid (script : JSValue) (engine : Str → ExecuteResponse)
    (h : (!jsTruthy script || !jsIsString script) = true) :
    handleExecute script engine = { status := 400, body := validationError, engineCalled := false } := by
  unfold handleExecute
  rw [if_pos h]

theorem handleExecute_valid (s : Str) (engine : Str → ExecuteResponse) (hs : s ≠ []) :
    handleExecute (JSValue.vStr s) engine = { status := 200, body := engine s, engineCalled := true } := by
  unfold handleExecute
  have h1 : jsTruthy (JSValue.vStr s) = true := by
    simp [jsTruthy, hs]
  rw [if_neg]
  · rfl
  · simp [h1, jsIsString]

/-- Claim C4: a request whose `script` is missing, empty, or not text is
rejected immediately with status 400, `success := false`, a descriptive
error, and the engine never started; status 400 arises only in that case,
and for every valid script the engine result is the response body verbatim
under status 200, engine failures included. -/
theorem claim_C4 (script : JSValue) (engine : Str → ExecuteResponse) :
    ((∀ s, script = JSValue.vStr s → s = []) →
        handleExecute script engine =
          { status := 400,
            body := { success := false, output := none,
                      error := some ("Script is required".toList), executionTime := none },
            engineCalled := false }) ∧
    (∀ s, script = JSValue.vStr s → s ≠ [] →
        handleExecute script engine = { status := 200, body := engine s, engineCalled := true }) ∧
    ((handleExecute script engine).status = 400 ↔ ∀ s, script = JSValue.vStr s → s = []) := by
  by_cases hvalid : ∃ s, script = JSValue.vStr s ∧ s ≠ []
  · rcases hvalid with ⟨s, rfl, hs⟩
    refine ⟨?_, ?_, ?_⟩
    · intro hall
      exact absurd (hall s rfl) hs
    · intro s' hs' _
      injection hs' with h
      subst h
      exact handleExecute_valid s engine hs
    · rw [handleExecute_valid s engine hs]
      constructor
      · intro h400
        have h2 : (200 : Nat) = 400 := h400
        exact absurd h2 (by decide)
      · intro hall
        exact absurd (hall s rfl) hs
  · have hrej : (!jsTruthy script || !jsIsString script) = true := by
      cases script with
      | vStr s =>
          have hs : s = [] := by
            by_contra hne
            exact hvalid ⟨s, rfl, hne⟩
          subst hs
          rfl
      | vNum n => simp [jsTruthy, jsIsString]
      | vBool b => simp [jsTruthy, jsIsString]
      | vNull => rfl
      | vUndefined => rfl
    have hinv := handleExecute_invalid script engine hrej
    refine ⟨fun _ => hinv, ?_, ?_⟩
    · intro s' hs' hne
      exact absurd ⟨s', hs', hne⟩ hvalid
    · rw [hinv]
      constructor
      · intro _ s' hs'
        by_contra hne
        exact hvalid ⟨s', hs', hne⟩
      · intro _
        rfl

/-- Witness for C4: a nonempty script string is passed to the engine and its
result echoed verbatim with status 200. -/
theorem claim_C4_witness :
    handleExecute (JSValue.vStr ("print(1)".toList))
        (fun _ => { success := true, output := some ("1".toList), error := none,
                    executionTime := some 3 }) =
      { status := 200,
        body := { success := true, output := some ("1".toList), error := none,
                  executionTime := some 3 },
        engineCalled := true } :=
  (claim_C4 (JSValue.vStr ("print(1)".toList)) _).2.1 _ rfl (by decide)

/-- Claim C8: concurrent invocations are isolated. Each call's final state
is the single-invocation run over exactly its own events, and replacing the
other call's initial state and interleaved events (keeping this call's
events) leaves this call's entire state — buffers, result, timing —
unchanged. -/
theorem claim_C8 (a b b' : InvState) (tr tr' : List (Bool × TEvent))
    (h : callEvents false tr = callEvents false tr') :
    (worldRun (a, b) tr).1 = runEvents a (callEvents false tr) ∧
    (worldRun (a, b) tr).2 = runEvents b (callEvents true tr) ∧
    (worldRun (a, b) tr).1 = (worldRun (a, b') tr').1 := by
  have h1 := worldRun_proj tr (a, b)
  have h2 := worldRun_proj tr' (a, b')
  exact ⟨h1.1, h1.2, by rw [h1.1, h2.1, h]⟩

/-- Witness for C8: the first call's state ignores interleaved events of a
second call with a different script and timing. -/
theorem claim_C8_witness :
    (worldRun (initState 0, initState 0)
        [(false, ⟨1, PEvent.dataOut ("a".toList)⟩), (true, ⟨2, PEvent.dataOut ("bb".toList)⟩),
         (false, ⟨3, PEvent.close (some 0)⟩), (true, ⟨4, PEvent.close (some 1)⟩)]).1 =
    (worldRun (initState 0, initState 7)
        [(false, ⟨1, PEvent.dataOut ("a".toList)⟩), (false, ⟨3, PEvent.close (some 0)⟩)]).1 :=
  (claim_C8 (initState 0) (initState 0) (initState 7) _ _ (by decide)).2.2

/-- Claim C9: the environment handed to the child process is the caller
process's environment with exactly the one fixed setting
`PYTHONIOENCODING=utf-8` forced: that key looks up to `utf-8`, every other
key looks up to whatever the parent maps it to, and the key set is the
parent's, extended by the forced key only when it was absent. -/
theorem claim_C9 (parent : List (Str × Str)) (k : Str) :
    lookupKey (spawnEnv parent) k =
      (if k = envKey then some envVal else lookupKey parent k) ∧
    ((spawnEnv parent).map Prod.fst = parent.map Prod.fst ∨
     (spawnEnv parent).map Prod.fst = parent.map Prod.fst ++ [envKey]) :=
  ⟨lookupKey_setKey parent envKey envVal k, setKey_keys parent envKey envVal⟩

/-- Claim C10: once a stream buffer has been truncated — its content is the
first 10,000 accumulated characters followed by the truncation marker —
every further data event leaves it unchanged: appending any chunk and
re-applying the truncation rule reproduces the same cap-plus-marker
string. -/
theorem claim_C10 (raw chunk : Str) (h : MAX_OUTPUT_LENGTH < raw.length) :
    truncAll raw = raw.take MAX_OUTPUT_LENGTH ++ truncMarker ∧
    appendData (truncAll raw) chunk = truncAll raw := by
  have hT : truncAll raw = raw.take MAX_OUTPUT_LENGTH ++ truncMarker := by
    unfold truncAll
    rw [if_pos h]
  refine ⟨hT, ?_⟩
  rw [hT]
  exact appendData_of_truncated _ chunk (by simp [Nat.min_eq_left (Nat.le_of_lt h)])

/-- Witness for C10 on a concrete over-cap buffer. -/
theorem claim_C10_witness :
    MAX_OUTPUT_LENGTH < (List.replicate 10001 'a').length ∧
    appendData (truncAll (List.replicate 10001 'a')) ("xyz".toList)
      = truncAll (List.replicate 10001 'a') :=
  ⟨by norm_num [MAX_OUTPUT_LENGTH],
   (claim_C10 (List.replicate 10001 'a') ("xyz".toList) (by norm_num [MAX_OUTPUT_LENGTH])).2⟩

theorem appendData_nil_big (ch : Str) (h : MAX_OUTPUT_LENGTH < ch.length) :
    appendData [] ch = ch.take MAX_OUTPUT_LENGTH ++ truncMarker := by
  simp only [appendData, List.nil_append]
  rw [if_pos h]

theorem jsTrim_space_repl :
    jsTrim ((' ' :: List.replicate 9999 'a') ++ truncMarker)
      = List.replicate 9999 'a' ++ truncMarker := by
  unfold jsTrim
  have h1 : jsTrimLeft ((' ' :: List.replicate 9999 'a') ++ truncMarker)
      = List.replicate 9999 'a' ++ truncMarker := by
    rw [List.cons_append, jsTrimLeft_cons_of_ws _ _ (by decide)]
    have h99 : (9999 : Nat) = 9998 + 1 := by norm_num
    rw [h99, List.replicate_succ, List.cons_append]
    exact jsTrimLeft_cons_of_not_ws _ _ (by decide)
  rw [h1, jsTrimRight_append_truncMarker]

/-- Counterexample to C2 as stated: a stdout stream that starts with a
whitespace character and exceeds the cap is truncated to cap + marker in
the buffer, but the final result's output field is additionally trimmed, so
its length is one less than cap + marker length — not "exactly cap plus the
length of the truncation marker". -/
theorem claim_C2_counterexample :
    (runEvents (initState 0)
        [⟨1, PEvent.dataOut (' ' :: List.replicate MAX_OUTPUT_LENGTH 'a')⟩,
         ⟨2, PEvent.close (some 0)⟩]).result =
      some { success := true, output := some (List.replicate 9999 'a' ++ truncMarker),
             error := none, executionTime := some 2 } ∧
    MAX_OUTPUT_LENGTH < (' ' :: List.replicate MAX_OUTPUT_LENGTH 'a').length ∧
    (List.replicate 9999 'a' ++ truncMarker).length ≠ MAX_OUTPUT_LENGTH + truncMarker.length := by
  have hM : MAX_OUTPUT_LENGTH = 10000 := rfl
  have hlen : (' ' :: List.replicate MAX_OUTPUT_LENGTH 'a').length = MAX_OUTPUT_LENGTH + 1 := by
    rw [List.length_cons, List.length_replicate]
  have hbig : MAX_OUTPUT_LENGTH < (' ' :: List.replicate MAX_OUTPUT_LENGTH 'a').length := by
    rw [hlen]
    exact Nat.lt_succ_self _
  have hlen2 : (List.replicate 9999 'a' ++ truncMarker).length = 9999 + truncMarker.length := by
    rw [List.length_append, List.length_replicate]
  have happ : appendData [] (' ' :: List.replicate MAX_OUTPUT_LENGTH 'a')
      = (' ' :: List.replicate 9999 'a') ++ truncMarker := by
    rw [appendData_nil_big _ hbig]
    have h10 : MAX_OUTPUT_LENGTH = 9999 + 1 := rfl
    rw [h10, List.take_succ_cons, List.take_replicate, Nat.min_eq_left (by norm_num)]
  refine ⟨?_, hbig, by rw [hlen2, truncMarker_length, hM]; omega⟩
  have hsd : (step (initState 0)
      ⟨1, PEvent.dataOut (' ' :: List.replicate MAX_OUTPUT_LENGTH 'a')⟩).stdout
        = (' ' :: List.replicate 9999 'a') ++ truncMarker := by
    rw [step_stdout]
    exact happ
  show (step (step (initState 0) ⟨1, PEvent.dataOut (' ' :: List.replicate MAX_OUTPUT_LENGTH 'a')⟩)
      ⟨2, PEvent.close (some 0)⟩).result =
    some { success := true, output := some (List.replicate 9999 'a' ++ truncMarker),
           error := none, executionTime := some 2 }
  have hne2 : List.replicate 9999 'a' ++ truncMarker ≠ [] :=
    fun h => truncMarker_ne_nil (List.append_eq_nil.mp h).2
  rw [step_close_eq _ _ _ rfl, if_pos rfl, hsd, jsTrim_space_repl,
    if_neg hne2, step_startTime]
  rfl

/-- Claim C2 (amended): for a stdout stream exceeding the 10,000-character
cap, the buffer becomes the first cap characters plus the truncation marker
the moment the cap is exceeded, has length exactly cap + marker length,
absorbs every later chunk unchanged, and the final result's output field
has length at most cap + marker length — with equality exactly guaranteed
when the capped text does not start with whitespace, since the result field
is additionally trimmed. -/
theorem claim_C2 (t0 t : Int) (tr : List TEvent)
    (hdata : ∀ e ∈ tr, isDataEvent e = true)
    (hbig : MAX_OUTPUT_LENGTH < (rawOut tr).length) :
    (runEvents (initState t0) tr).stdout
        = (rawOut tr).take MAX_OUTPUT_LENGTH ++ truncMarker ∧
    ((runEvents (initState t0) tr).stdout).length
        = MAX_OUTPUT_LENGTH + truncMarker.length ∧
    (∀ chunk, appendData ((runEvents (initState t0) tr).stdout) chunk
        = (runEvents (initState t0) tr).stdout) ∧
    ∀ r, (runEvents (initState t0) (tr ++ [⟨t, PEvent.close (some 0)⟩])).result = some r →
      ∃ o, r.output = some o ∧ o.length ≤ MAX_OUTPUT_LENGTH + truncMarker.length ∧
        (∀ c rest, rawOut tr = c :: rest → isJsWhitespace c = false →
          o.length = MAX_OUTPUT_LENGTH + truncMarker.length) := by
  have htake : ((rawOut tr).take MAX_OUTPUT_LENGTH).length = MAX_OUTPUT_LENGTH := by
    simp [Nat.min_eq_left (Nat.le_of_lt hbig)]
  have hconj1 : (runEvents (initState t0) tr).stdout
      = (rawOut tr).take MAX_OUTPUT_LENGTH ++ truncMarker := by
    rw [runEvents_init_stdout]
    unfold truncAll
    rw [if_pos hbig]
  have hconj2 : ((runEvents (initState t0) tr).stdout).length
      = MAX_OUTPUT_LENGTH + truncMarker.length := by
    rw [hconj1]
    simp [htake]
  refine ⟨hconj1, hconj2, ?_, ?_⟩
  · intro chunk
    rw [hconj1]
    exact appendData_of_truncated _ chunk htake
  · intro r hr
    have hres : (runEvents (initState t0) tr).result = none :=
      (runEvents_dataOnly (initState t0) tr hdata).1
    rw [runEvents_append, runEvents_single, step_close_eq _ _ _ hres, if_pos rfl] at hr
    have hr2 : ({ success := true, output := some (if jsTrim (runEvents (initState t0) tr).stdout = [] then noOutputMsg else jsTrim (runEvents (initState t0) tr).stdout), error := none, executionTime := some (t - (runEvents (initState t0) tr).startTime) } : ExecuteResponse) = r := by
      injection hr
    subst hr2
    refine ⟨_, rfl, ?_, ?_⟩
    · by_cases hz : jsTrim (runEvents (initState t0) tr).stdout = []
      · rw [if_pos hz]
        decide
      · rw [if_neg hz]
        calc (jsTrim (runEvents (initState t0) tr).stdout).length
            ≤ ((runEvents (initState t0) tr).stdout).length := jsTrim_length_le _
          _ = MAX_OUTPUT_LENGTH + truncMarker.length := hconj2
    · intro c rest hraw hws
      have h10 : MAX_OUTPUT_LENGTH = 9999 + 1 := rfl
      have hbuf : (runEvents (initState t0) tr).stdout
          = (c :: rest.take 9999) ++ truncMarker := by
        rw [hconj1, hraw, h10, List.take_succ_cons]
      have hjs : jsTrim ((runEvents (initState t0) tr).stdout)
          = (runEvents (initState t0) tr).stdout := by
        rw [hbuf]
        exact jsTrim_trunc_of_head_not_ws c _ hws
      have hne : jsTrim ((runEvents (initState t0) tr).stdout) ≠ [] := by
        rw [hjs, hbuf]
        simp
      rw [if_neg hne, hjs]
      exact hconj2

/-- Witness for the amended C2 at a concrete over-cap stream. -/
theorem claim_C2_witness :
    MAX_OUTPUT_LENGTH < (rawOut [⟨1, PEvent.dataOut (List.replicate 10001 'b')⟩]).length ∧
    ((runEvents (initState 0) [⟨1, PEvent.dataOut (List.replicate 10001 'b')⟩]).stdout).length
      = MAX_OUTPUT_LENGTH + truncMarker.length := by
  have hraw : rawOut [⟨1, PEvent.dataOut (List.replicate 10001 'b')⟩]
      = List.replicate 10001 'b' := by
    simp only [rawOut, outChunks, List.filterMap_cons, List.filterMap_nil,
      List.flatten_cons, List.flatten_nil, List.append_nil]
  have hbig : MAX_OUTPUT_LENGTH < (rawOut [⟨1, PEvent.dataOut (List.replicate 10001 'b')⟩]).length := by
    rw [hraw]
    norm_num [MAX_OUTPUT_LENGTH, List.length_replicate]
  exact ⟨hbig, (claim_C2 0 5 [⟨1, PEvent.dataOut (List.replicate 10001 'b')⟩] (by decide) hbig).2.1⟩

end SecureNotes
